import Mathlib

/-!
# Verification of the TeleResearch moderation bot

Shallow embedding of the moderation core of `src/TGBot.py` (polling variant)
and `src/TGBot2.py` (webhook variant), together with proofs of the spec claims.

Modelling conventions:
* Python `dict`s keyed by `str(id)` are modelled as association lists keyed by
  `Int` (the `str` conversion of an integer key is injective, so nothing is lost).
* Python `set`s of banned words are modelled as duplicate-free `List String`
  with explicit set operations; the JSON round trip `set → list → set` in the
  source never observes order or duplicates.
* The messaging gateway is external: each gateway call is recorded as an
  emitted `Action`, and where control flow depends on a gateway outcome the
  outcome is a `Bool` parameter of the embedded function.
* Message text is a `List Char`.  Python regex classes `\w`, `\d`, `\s` are
  modelled over ASCII, which covers every string the claims mention.
-/

set_option autoImplicit false

namespace TeleResearch

/-! ## Association-list primitives (Python `dict` semantics) -/

/-- Lookup in an association list: first binding of the key, like a Python
`dict` access (keys are unique in every state the operations build). -/
def getA {α β : Type} [BEq α] : List (α × β) → α → Option β
  | [], _ => none
  | (k', v') :: rest, k => if k' == k then some v' else getA rest k

/-- `d[k] = v` on an association list: overwrite the first binding of `k`,
or append a new binding (Python dicts append new keys at the end). -/
def setA {α β : Type} [BEq α] : List (α × β) → α → β → List (α × β)
  | [], k, v => [(k, v)]
  | (k', v') :: rest, k, v =>
    if k' == k then (k, v) :: rest else (k', v') :: setA rest k v

@[simp] theorem getA_nil {α β : Type} [BEq α] (k : α) : getA ([] : List (α × β)) k = none := rfl

theorem getA_setA_self {α β : Type} [BEq α] [LawfulBEq α] (l : List (α × β)) (k : α) (v : β) :
    getA (setA l k v) k = some v := by
  induction l with
  | nil => simp [getA, setA]
  | cons p rest ih =>
    obtain ⟨k', v'⟩ := p
    by_cases h : k' = k
    · simp [setA, h, getA]
    · simp [setA, getA, h, ih]

theorem getA_setA_ne {α β : Type} [BEq α] [LawfulBEq α] (l : List (α × β)) (k k' : α) (v : β)
    (h : k' ≠ k) : getA (setA l k v) k' = getA l k' := by
  have hne : (k == k') = false := by
    simp only [beq_eq_false_iff_ne, ne_eq]
    exact fun hh => h hh.symm
  induction l with
  | nil => simp [getA, setA, hne]
  | cons p rest ih =>
    obtain ⟨a, b⟩ := p
    by_cases ha : a = k
    · subst ha
      simp [setA, getA, hne]
    · have hak : (a == k) = false := by simp [ha]
      by_cases ha' : a = k'
      · simp only [setA, hak, Bool.false_eq_true, if_false]
        simp [getA, ha']
      · simp only [setA, hak, Bool.false_eq_true, if_false]
        simp [getA, ha', ih]

/-! ## Banned-word sets (Python `set` over lowercase strings) -/

/-- `GLOBAL_BANNED_WORDS` from both source files. -/
def GLOBAL_BANNED_WORDS : List String := ["badword1", "badword2", "somevulgarword"]

/-- Set union on word lists: `set(a) | set(b)` (keeps `a`, adds the members of
`b` that are missing from `a`). -/
def wordUnion (a b : List String) : List String :=
  a ++ b.filter (fun w => !a.contains w)

/-- `set.add`. -/
def wordInsert (w : String) (l : List String) : List String :=
  if l.contains w then l else l ++ [w]

/-- `set.discard`: removing an absent element is a silent no-op. -/
def wordDiscard (w : String) (l : List String) : List String :=
  l.filter (fun x => x != w)

theorem mem_wordUnion_right (a b : List String) (w : String) (h : w ∈ b) :
    w ∈ wordUnion a b := by
  by_cases ha : w ∈ a
  · exact List.mem_append_left _ ha
  · refine List.mem_append_right _ (List.mem_filter.mpr ⟨h, ?_⟩)
    simp [List.contains, List.elem_iff, ha]

theorem wordUnion_absorb (a b : List String) (h : ∀ w ∈ b, w ∈ a) :
    wordUnion a b = a := by
  have hnil : b.filter (fun w => !a.contains w) = [] := by
    apply List.filter_eq_nil_iff.mpr
    intro w hw
    simp only [Bool.not_eq_true', Bool.not_eq_false, List.contains, List.elem_iff]
    exact h w hw
  unfold wordUnion
  rw [hnil, List.append_nil]

/-! ## The durable state store

`DEFAULT_DATA` in the sources is a record of top-level mappings.  `BotState`
is the in-memory working copy (every key present); durability itself is
abstracted (each mutating helper in the source ends in `save_data`, which
rewrites the whole record). -/

/-- A stored per-chat configuration record: any key may be missing in the
persisted JSON object (`conf.get(...)` supplies the default on read). -/
structure StoredConf where
  delete_links : Option Bool := none
  warn_limit : Option Nat := none
  ban_on_limit : Option Bool := none
  banned_words : Option (List String) := none
  deriving DecidableEq, Repr

/-- The in-memory state store: the six top-level keys of `DEFAULT_DATA` in
`TGBot2.py` (the polling variant's `DEFAULT_DATA` lacks `chats_config`).
`users` maps a user id to the list of chats the user was observed in
(display-name fields are carried by the source but never branched on, so they
are dropped).  `files` maps a key to `(path, description)`. -/
structure BotState where
  users : List (Int × List Int) := []
  warnings : List (Int × List (Int × Int)) := []
  banned : List (Int × List Int) := []
  files : List (String × (String × String)) := []
  channels : List Int := []
  chats_config : List (Int × StoredConf) := []
  deriving DecidableEq, Repr

/-- The empty default structure (`DEFAULT_DATA`). -/
def initState : BotState := {}

/-! ## Warning / ban record primitives (shared by both variants) -/

/-- The warning count currently observable for `(chat, user)`:
`data.get("warnings", {}).get(chat, {}).get(user, 0)`. -/
def getWarn (st : BotState) (c u : Int) : Int :=
  (getA ((getA st.warnings c).getD []) u).getD 0

/-- `increment_warning`: ensure the chat map exists, add one to the user's
count (defaulting to 0), persist, and return the new count. -/
def increment_warning (st : BotState) (c u : Int) : BotState × Int :=
  let chatMap := (getA st.warnings c).getD []
  let newCount := ((getA chatMap u).getD 0) + 1
  ({ st with warnings := setA st.warnings c (setA chatMap u newCount) }, newCount)

/-- `reset_warnings`: set the count to 0, but only when an entry exists. -/
def reset_warnings (st : BotState) (c u : Int) : BotState :=
  match getA st.warnings c with
  | none => st
  | some m =>
    match getA m u with
    | none => st
    | some _ => { st with warnings := setA st.warnings c (setA m u 0) }

/-- The ban ledger list for a chat. -/
def bannedList (st : BotState) (c : Int) : List Int :=
  (getA st.banned c).getD []

/-- `ban_user_record`: materialise the chat's ledger list (`setdefault`) and
append the user if not already present. -/
def ban_user_record (st : BotState) (c u : Int) : BotState :=
  let l := bannedList st c
  let l' := if u ∈ l then l else l ++ [u]
  { st with banned := setA st.banned c l' }

/-- `unban_user_record` (polling variant only): remove the first occurrence,
silently doing nothing when the pair is not in the ledger. -/
def unban_user_record (st : BotState) (c u : Int) : BotState :=
  match getA st.banned c with
  | none => st
  | some l => if u ∈ l then { st with banned := setA st.banned c (l.erase u) } else st

/-- `is_user_banned`. -/
def is_user_banned (st : BotState) (c u : Int) : Bool :=
  (bannedList st c).contains u

/-- `ensure_user_registered`: create the user record on first observation and
append the chat id to the user's chat list when missing. -/
def ensure_user_registered (st : BotState) (u : Int) (c : Int) : BotState :=
  let st1 :=
    if (getA st.users u).isSome then st
    else { st with users := setA st.users u [] }
  let chats := (getA st1.users u).getD []
  if c ∈ chats then st1
  else { st1 with users := setA st1.users u (chats ++ [c]) }

/-! ## Per-chat policy (webhook variant) -/

/-- `GLOBAL_CONFIG` defaults in `TGBot2.py`. -/
def warn_limit_default : Nat := 3
def delete_links_default : Bool := true
def ban_on_limit_default : Bool := true

/-- The effective per-chat policy: every field concrete. -/
structure ChatConf where
  delete_links : Bool
  warn_limit : Nat
  ban_on_limit : Bool
  banned_words : List String
  deriving DecidableEq, Repr

/-- `get_chat_config`: stored configuration merged with the system defaults;
the effective banned-word set is the stored set unioned with the global
defaults on every read. -/
def get_chat_config (st : BotState) (c : Int) : ChatConf :=
  let conf := (getA st.chats_config c).getD {}
  { delete_links := conf.delete_links.getD delete_links_default
    warn_limit := conf.warn_limit.getD warn_limit_default
    ban_on_limit := conf.ban_on_limit.getD ban_on_limit_default
    banned_words := wordUnion (conf.banned_words.getD []) GLOBAL_BANNED_WORDS }

/-- `set_chat_config`: store the full record for the chat and persist. -/
def set_chat_config (st : BotState) (c : Int) (conf : StoredConf) : BotState :=
  { st with chats_config := setA st.chats_config c conf }

/-- One already-parsed `key=value` token of `/setconfig` (argument parsing is
outside the core; `add_banned`/`remove_banned` payloads arrive
`.strip().lower()`-ed as in the source). -/
inductive ConfigToken where
  | setDeleteLinks (b : Bool)
  | setWarnLimit (n : Nat)
  | setBanOnLimit (b : Bool)
  | addBanned (w : String)
  | removeBanned (w : String)
  deriving DecidableEq, Repr

/-- The per-token body of the `/setconfig` loop. -/
def applyToken (conf : ChatConf) : ConfigToken → ChatConf
  | .setDeleteLinks b => { conf with delete_links := b }
  | .setWarnLimit n => { conf with warn_limit := n }
  | .setBanOnLimit b => { conf with ban_on_limit := b }
  | .addBanned w => { conf with banned_words := wordInsert w conf.banned_words }
  | .removeBanned w => { conf with banned_words := wordDiscard w conf.banned_words }

/-- `cmd_setconfig` (admin path, group chat): start from the *effective*
config, apply each token, and store every field explicitly. -/
def cmd_setconfig (st : BotState) (c : Int) (tokens : List ConfigToken) : BotState :=
  let conf := tokens.foldl applyToken (get_chat_config st c)
  set_chat_config st c
    { delete_links := some conf.delete_links
      warn_limit := some conf.warn_limit
      ban_on_limit := some conf.ban_on_limit
      banned_words := some conf.banned_words }

/-! ## Banned-word classification -/

/-- `pat in hay` on Python strings (substring containment; the empty pattern
is contained in everything). -/
def beginsWith : List Char → List Char → Bool
  | [], _ => true
  | _ :: _, [] => false
  | p :: ps, c :: cs => (p == c) && beginsWith ps cs

def strContains (hay pat : List Char) : Bool :=
  match hay with
  | [] => beginsWith pat []
  | _ :: cs => beginsWith pat hay || strContains cs pat

/-- `text_contains_banned_word` (`TGBot2.py`): case-insensitive substring
match of each word of the effective set against the lowered text, returning
the first matching word in iteration order. -/
def text_contains_banned_word (text : List Char) (banned : List String) : Option String :=
  if text = [] then none
  else banned.find? (fun w => (w != "") && strContains (text.map Char.toLower) w.toList)

/-! ## Broadcast fan-out -/

/-- One broadcast loop: per-recipient gateway call (`ok r` is the gateway
outcome), counting successes and failures, never aborting.  The returned list
records the recipients attempted, in order. -/
def broadcastLoop (ok : Int → Bool) : List Int → Nat × Nat → (Nat × Nat) × List Int
  | [], acc => (acc, [])
  | r :: rs, (s, f) =>
    let acc' := if ok r then (s + 1, f) else (s, f + 1)
    let (res, att) := broadcastLoop ok rs acc'
    (res, r :: att)

/-- `cmd_broadcast` (text mode, both variants): loop over all registered
users, then over all configured channels, starting from `sent=0, failed=0`. -/
def cmd_broadcast (ok : Int → Bool) (users channels : List Int) : (Nat × Nat) × List Int :=
  let (acc1, att1) := broadcastLoop ok users (0, 0)
  let (acc2, att2) := broadcastLoop ok channels acc1
  (acc2, att1 ++ att2)

theorem broadcastLoop_spec (ok : Int → Bool) (l : List Int) (s f : Nat) :
    broadcastLoop ok l (s, f) =
      ((s + l.countP ok, f + l.countP (fun r => !ok r)), l) := by
  induction l generalizing s f with
  | nil => simp [broadcastLoop]
  | cons r rs ih =>
    simp only [broadcastLoop]
    by_cases h : ok r <;>
      simp [h, ih, List.countP_cons, Prod.ext_iff] <;> omega

theorem countP_true_add_countP_false (p : Int → Bool) (l : List Int) :
    l.countP p + l.countP (fun r => !p r) = l.length := by
  induction l with
  | nil => simp
  | cons a l ih =>
    by_cases h : p a <;> simp [List.countP_cons, h] <;> omega

/-- C4: broadcast fan-out over the union of the registered users and the
configured channels attempts every recipient exactly once (the attempt list
is exactly `users ++ channels`, unaffected by failures), and returns counters
with `sent` = the number of successful gateway sends, `failed` = the number
of failing ones, so `sent + failed` = the number of recipients. -/
theorem broadcast_counts_every_recipient (ok : Int → Bool) (users channels : List Int) :
    (cmd_broadcast ok users channels).2 = users ++ channels ∧
    (cmd_broadcast ok users channels).1.1 = (users ++ channels).countP ok ∧
    (cmd_broadcast ok users channels).1.2 = (users ++ channels).countP (fun r => !ok r) ∧
    (cmd_broadcast ok users channels).1.1 + (cmd_broadcast ok users channels).1.2 =
      (users ++ channels).length := by
  have hs : cmd_broadcast ok users channels =
      (((users ++ channels).countP ok, (users ++ channels).countP (fun r => !ok r)),
        users ++ channels) := by
    simp only [cmd_broadcast, broadcastLoop_spec, List.countP_append, Nat.zero_add]
  rw [hs]
  exact ⟨rfl, rfl, rfl, countP_true_add_countP_false ok (users ++ channels)⟩

/-! ## Claim C6 — banned-word detection -/

/-- C6: banned-word detection is a case-insensitive substring match of each
word of the effective set against the text: with banned set `{"spam"}`,
`"SPAM now"` and `"buy Spam1"` match while `"span"` does not; empty text
never matches; and in general a match is reported exactly when the text is
nonempty and some nonempty banned word is a substring of the lowered text. -/
theorem banned_word_detection :
    (text_contains_banned_word "SPAM now".toList ["spam"]).isSome = true ∧
    (text_contains_banned_word "buy Spam1".toList ["spam"]).isSome = true ∧
    text_contains_banned_word "span".toList ["spam"] = none ∧
    (∀ bw : List String, text_contains_banned_word [] bw = none) ∧
    (∀ (text : List Char) (bw : List String),
      ((text_contains_banned_word text bw).isSome ↔
        text ≠ [] ∧ ∃ w ∈ bw, w ≠ "" ∧ strContains (text.map Char.toLower) w.toList = true)) := by
  refine ⟨by decide, by decide, by decide, fun bw => by simp [text_contains_banned_word], ?_⟩
  intro text bw
  by_cases ht : text = []
  · simp [text_contains_banned_word, ht]
  · simp only [text_contains_banned_word, ht, if_false, ne_eq, not_false_eq_true, true_and,
      List.find?_isSome]
    constructor
    · rintro ⟨w, hw, hp⟩
      simp only [Bool.and_eq_true, bne_iff_ne, ne_eq] at hp
      exact ⟨w, hw, hp.1, hp.2⟩
    · rintro ⟨w, hw, hne, hc⟩
      refine ⟨w, hw, ?_⟩
      have hc' : strContains (text.map Char.toLower) w.data = true := hc
      simp [hne, hc']

/-! ## Claims C7 / C10 — effective policy -/

theorem foldl_applyToken_delete_links (ts : List ConfigToken) (conf : ChatConf)
    (h : ∀ b, ConfigToken.setDeleteLinks b ∉ ts) :
    (ts.foldl applyToken conf).delete_links = conf.delete_links := by
  induction ts generalizing conf with
  | nil => rfl
  | cons t ts ih =>
    have ht : ∀ b, ConfigToken.setDeleteLinks b ∉ ts := fun b hb => h b (List.mem_cons_of_mem _ hb)
    rw [List.foldl_cons, ih _ ht]
    cases t with
    | setDeleteLinks b => exact absurd (List.mem_cons_self _ _) (h b)
    | setWarnLimit n => rfl
    | setBanOnLimit b => rfl
    | addBanned w => rfl
    | removeBanned w => rfl

theorem foldl_applyToken_warn_limit (ts : List ConfigToken) (conf : ChatConf)
    (h : ∀ n, ConfigToken.setWarnLimit n ∉ ts) :
    (ts.foldl applyToken conf).warn_limit = conf.warn_limit := by
  induction ts generalizing conf with
  | nil => rfl
  | cons t ts ih =>
    have ht : ∀ n, ConfigToken.setWarnLimit n ∉ ts := fun n hb => h n (List.mem_cons_of_mem _ hb)
    rw [List.foldl_cons, ih _ ht]
    cases t with
    | setDeleteLinks b => rfl
    | setWarnLimit n => exact absurd (List.mem_cons_self _ _) (h n)
    | setBanOnLimit b => rfl
    | addBanned w => rfl
    | removeBanned w => rfl

theorem foldl_applyToken_ban_on_limit (ts : List ConfigToken) (conf : ChatConf)
    (h : ∀ b, ConfigToken.setBanOnLimit b ∉ ts) :
    (ts.foldl applyToken conf).ban_on_limit = conf.ban_on_limit := by
  induction ts generalizing conf with
  | nil => rfl
  | cons t ts ih =>
    have ht : ∀ b, ConfigToken.setBanOnLimit b ∉ ts := fun b hb => h b (List.mem_cons_of_mem _ hb)
    rw [List.foldl_cons, ih _ ht]
    cases t with
    | setDeleteLinks b => rfl
    | setWarnLimit n => rfl
    | setBanOnLimit b => exact absurd (List.mem_cons_self _ _) (h b)
    | addBanned w => rfl
    | removeBanned w => rfl

theorem foldl_applyToken_banned_words (ts : List ConfigToken) (conf : ChatConf)
    (h : ∀ w, ConfigToken.addBanned w ∉ ts ∧ ConfigToken.removeBanned w ∉ ts) :
    (ts.foldl applyToken conf).banned_words = conf.banned_words := by
  induction ts generalizing conf with
  | nil => rfl
  | cons t ts ih =>
    have ht : ∀ w, ConfigToken.addBanned w ∉ ts ∧ ConfigToken.removeBanned w ∉ ts :=
      fun w => ⟨fun hb => (h w).1 (List.mem_cons_of_mem _ hb),
        fun hb => (h w).2 (List.mem_cons_of_mem _ hb)⟩
    rw [List.foldl_cons, ih _ ht]
    cases t with
    | setDeleteLinks b => rfl
    | setWarnLimit n => rfl
    | setBanOnLimit b => rfl
    | addBanned w => exact absurd (List.mem_cons_self _ _) (h w).1
    | removeBanned w => exact absurd (List.mem_cons_self _ _) (h w).2

theorem get_chat_config_after_setconfig (st : BotState) (c : Int) (ts : List ConfigToken) :
    get_chat_config (cmd_setconfig st c ts) c =
      { delete_links := (ts.foldl applyToken (get_chat_config st c)).delete_links,
        warn_limit := (ts.foldl applyToken (get_chat_config st c)).warn_limit,
        ban_on_limit := (ts.foldl applyToken (get_chat_config st c)).ban_on_limit,
        banned_words :=
          wordUnion (ts.foldl applyToken (get_chat_config st c)).banned_words
            GLOBAL_BANNED_WORDS } := by
  simp [cmd_setconfig, set_chat_config, get_chat_config, getA_setA_self]

theorem banned_words_shape (st : BotState) (c : Int) :
    ∃ s : List String, (get_chat_config st c).banned_words = wordUnion s GLOBAL_BANNED_WORDS :=
  ⟨_, rfl⟩

theorem wordUnion_global_absorb (s : List String) :
    wordUnion (wordUnion s GLOBAL_BANNED_WORDS) GLOBAL_BANNED_WORDS =
      wordUnion s GLOBAL_BANNED_WORDS :=
  wordUnion_absorb _ _ (fun w hw => mem_wordUnion_right _ _ _ hw)

/-- C7: an unset conversation reads back the system defaults (threshold 3,
link-deletion on, ban-on-threshold on, banned set = the global defaults);
after `add_banned=foo` the effective banned set is `{foo}` plus the global
defaults; and a `/setconfig` update leaves every effective field it does not
name unchanged. -/
theorem effective_policy_defaults_and_partial_update :
    (∀ (st : BotState) (c : Int), getA st.chats_config c = none →
      get_chat_config st c =
        { delete_links := true, warn_limit := 3, ban_on_limit := true,
          banned_words := GLOBAL_BANNED_WORDS }) ∧
    (∀ (st : BotState) (c : Int), getA st.chats_config c = none →
      (get_chat_config (cmd_setconfig st c [.addBanned "foo"]) c).banned_words.toFinset
        = insert "foo" GLOBAL_BANNED_WORDS.toFinset) ∧
    (∀ (st : BotState) (c : Int) (ts : List ConfigToken),
      (∀ b, ConfigToken.setDeleteLinks b ∉ ts) →
      (get_chat_config (cmd_setconfig st c ts) c).delete_links =
        (get_chat_config st c).delete_links) ∧
    (∀ (st : BotState) (c : Int) (ts : List ConfigToken),
      (∀ n, ConfigToken.setWarnLimit n ∉ ts) →
      (get_chat_config (cmd_setconfig st c ts) c).warn_limit =
        (get_chat_config st c).warn_limit) ∧
    (∀ (st : BotState) (c : Int) (ts : List ConfigToken),
      (∀ b, ConfigToken.setBanOnLimit b ∉ ts) →
      (get_chat_config (cmd_setconfig st c ts) c).ban_on_limit =
        (get_chat_config st c).ban_on_limit) ∧
    (∀ (st : BotState) (c : Int) (ts : List ConfigToken),
      (∀ w, ConfigToken.addBanned w ∉ ts ∧ ConfigToken.removeBanned w ∉ ts) →
      (get_chat_config (cmd_setconfig st c ts) c).banned_words =
        (get_chat_config st c).banned_words) := by
  refine ⟨?_, ?_, ?_, ?_, ?_, ?_⟩
  · intro st c h
    simp [get_chat_config, h, warn_limit_default, delete_links_default, ban_on_limit_default]
    decide
  · intro st c h
    rw [get_chat_config_after_setconfig]
    have hbase : get_chat_config st c =
        { delete_links := true, warn_limit := 3, ban_on_limit := true,
          banned_words := GLOBAL_BANNED_WORDS } := by
      simp [get_chat_config, h, warn_limit_default, delete_links_default, ban_on_limit_default]
      decide
    rw [hbase]
    decide
  · intro st c ts h
    rw [get_chat_config_after_setconfig, foldl_applyToken_delete_links _ _ h]
  · intro st c ts h
    rw [get_chat_config_after_setconfig, foldl_applyToken_warn_limit _ _ h]
  · intro st c ts h
    rw [get_chat_config_after_setconfig, foldl_applyToken_ban_on_limit _ _ h]
  · intro st c ts h
    rw [get_chat_config_after_setconfig, foldl_applyToken_banned_words _ _ h]
    obtain ⟨s, hs⟩ := banned_words_shape st c
    simp only [hs, wordUnion_global_absorb]

/-- C7 witness: concrete instance of every conjunct. -/
theorem effective_policy_defaults_witness :
    get_chat_config initState 1 =
      { delete_links := true, warn_limit := 3, ban_on_limit := true,
        banned_words := GLOBAL_BANNED_WORDS } ∧
    (get_chat_config (cmd_setconfig initState 1 [.addBanned "foo"]) 1).banned_words.toFinset
      = insert "foo" GLOBAL_BANNED_WORDS.toFinset ∧
    (get_chat_config (cmd_setconfig initState 1 [.setWarnLimit 5]) 1).delete_links =
      (get_chat_config initState 1).delete_links ∧
    (get_chat_config (cmd_setconfig initState 1 [.setDeleteLinks false]) 1).warn_limit =
      (get_chat_config initState 1).warn_limit ∧
    (get_chat_config (cmd_setconfig initState 1 [.setWarnLimit 5]) 1).ban_on_limit =
      (get_chat_config initState 1).ban_on_limit ∧
    (get_chat_config (cmd_setconfig initState 1 [.setWarnLimit 5]) 1).banned_words =
      (get_chat_config initState 1).banned_words := by
  refine ⟨effective_policy_defaults_and_partial_update.1 initState 1 rfl,
    effective_policy_defaults_and_partial_update.2.1 initState 1 rfl,
    effective_policy_defaults_and_partial_update.2.2.1 initState 1 _ ?_,
    effective_policy_defaults_and_partial_update.2.2.2.1 initState 1 _ ?_,
    effective_policy_defaults_and_partial_update.2.2.2.2.1 initState 1 _ ?_,
    effective_policy_defaults_and_partial_update.2.2.2.2.2 initState 1 _ ?_⟩ <;>
    intro x <;> simp

/-- C10: the effective banned-word set of every conversation always contains
every global default word, and `remove_banned=w` for a globally banned `w`
cannot remove it: the next policy read re-unions the global defaults back. -/
theorem global_defaults_never_removable :
    (∀ (st : BotState) (c : Int) (w : String), w ∈ GLOBAL_BANNED_WORDS →
      w ∈ (get_chat_config st c).banned_words) ∧
    (∀ (st : BotState) (c : Int) (w : String), w ∈ GLOBAL_BANNED_WORDS →
      w ∈ (get_chat_config (cmd_setconfig st c [.removeBanned w]) c).banned_words) := by
  constructor
  · intro st c w hw
    exact mem_wordUnion_right _ _ _ hw
  · intro st c w hw
    rw [get_chat_config_after_setconfig]
    exact mem_wordUnion_right _ _ _ hw

/-- C10 witness. -/
theorem global_defaults_never_removable_witness :
    "badword1" ∈ (get_chat_config initState 1).banned_words ∧
    "badword1" ∈
      (get_chat_config (cmd_setconfig initState 1 [.removeBanned "badword1"]) 1).banned_words :=
  ⟨global_defaults_never_removable.1 initState 1 "badword1" (by decide),
   global_defaults_never_removable.2 initState 1 "badword1" (by decide)⟩

/-! ## Store operations and the warning-count invariant (C8) -/

/-- The state-store mutations of the two variants, with already-resolved
arguments. -/
inductive StoreOp where
  | incWarn (c u : Int)
  | resetWarn (c u : Int)
  | banRec (c u : Int)
  | unbanRec (c u : Int)
  | register (u c : Int)
  | setConf (c : Int) (ts : List ConfigToken)
  deriving DecidableEq, Repr

def applyOp (st : BotState) : StoreOp → BotState
  | .incWarn c u => (increment_warning st c u).1
  | .resetWarn c u => reset_warnings st c u
  | .banRec c u => ban_user_record st c u
  | .unbanRec c u => unban_user_record st c u
  | .register u c => ensure_user_registered st u c
  | .setConf c ts => cmd_setconfig st c ts

def applyOps (ops : List StoreOp) (st : BotState) : BotState :=
  ops.foldl applyOp st

theorem getWarn_increment_self (st : BotState) (c u : Int) :
    getWarn (increment_warning st c u).1 c u = getWarn st c u + 1 := by
  simp [increment_warning, getWarn, getA_setA_self]

theorem getWarn_increment_other (st : BotState) (c u c' u' : Int) (h : ¬(c' = c ∧ u' = u)) :
    getWarn (increment_warning st c' u').1 c u = getWarn st c u := by
  by_cases hc : c' = c
  · subst hc
    have hu : u ≠ u' := fun he => h ⟨rfl, he.symm⟩
    simp [increment_warning, getWarn, getA_setA_self, getA_setA_ne _ _ _ _ hu]
  · have hc' : c ≠ c' := fun he => hc he.symm
    simp [increment_warning, getWarn, getA_setA_ne _ _ _ _ hc']

theorem getWarn_reset_self (st : BotState) (c u : Int) :
    getWarn (reset_warnings st c u) c u = 0 := by
  unfold reset_warnings
  cases hc : getA st.warnings c with
  | none => simp [getWarn, hc]
  | some m =>
    cases hu : getA m u with
    | none => simp [getWarn, hc, hu]
    | some n => simp [getWarn, hc, hu, getA_setA_self]

theorem getWarn_reset_other (st : BotState) (c u c' u' : Int) (h : ¬(c' = c ∧ u' = u)) :
    getWarn (reset_warnings st c' u') c u = getWarn st c u := by
  unfold reset_warnings
  cases hc : getA st.warnings c' with
  | none => simp
  | some m =>
    cases hu : getA m u' with
    | none => simp [hu]
    | some n =>
      simp only [hu]
      by_cases hcc : c' = c
      · subst hcc
        have huu : u ≠ u' := fun he => h ⟨rfl, he.symm⟩
        simp [getWarn, getA_setA_self, getA_setA_ne _ _ _ _ huu, hc]
      · have hcc' : c ≠ c' := fun he => hcc he.symm
        simp [getWarn, getA_setA_ne _ _ _ _ hcc']

theorem warnings_ban_record (st : BotState) (c u : Int) :
    (ban_user_record st c u).warnings = st.warnings := rfl

theorem warnings_unban_record (st : BotState) (c u : Int) :
    (unban_user_record st c u).warnings = st.warnings := by
  unfold unban_user_record
  cases getA st.banned c with
  | none => rfl
  | some l =>
    by_cases h : u ∈ l <;> simp [h]

theorem warnings_register (st : BotState) (u c : Int) :
    (ensure_user_registered st u c).warnings = st.warnings := by
  unfold ensure_user_registered
  by_cases h1 : (getA st.users u).isSome <;> simp [h1] <;> split <;> rfl

theorem warnings_setconfig (st : BotState) (c : Int) (ts : List ConfigToken) :
    (cmd_setconfig st c ts).warnings = st.warnings := rfl

/-- Single-step warning-count facts: an explicit reset of the pair yields
exactly 0; every other operation leaves the pair's count unchanged or
(for its own increment) one larger, hence never smaller. -/
theorem getWarn_step (st : BotState) (op : StoreOp) (c u : Int) :
    (op = .resetWarn c u → getWarn (applyOp st op) c u = 0) ∧
    (op ≠ .resetWarn c u → getWarn st c u ≤ getWarn (applyOp st op) c u) := by
  constructor
  · rintro rfl
    exact getWarn_reset_self st c u
  · intro hne
    cases op with
    | incWarn c' u' =>
      by_cases h : c' = c ∧ u' = u
      · obtain ⟨rfl, rfl⟩ := h
        simp [applyOp, getWarn_increment_self]
      · simp [applyOp, getWarn_increment_other st c u c' u' h]
    | resetWarn c' u' =>
      have h : ¬(c' = c ∧ u' = u) := by
        rintro ⟨rfl, rfl⟩
        exact hne rfl
      simp [applyOp, getWarn_reset_other st c u c' u' h]
    | banRec c' u' => simp [applyOp, getWarn, warnings_ban_record]
    | unbanRec c' u' => simp [applyOp, getWarn, warnings_unban_record]
    | register u' c' => simp [applyOp, getWarn, warnings_register]
    | setConf c' ts => simp [applyOp, getWarn, warnings_setconfig]

theorem getWarn_nonneg_invariant (st : BotState) (h : ∀ c u, 0 ≤ getWarn st c u)
    (op : StoreOp) : ∀ c u, 0 ≤ getWarn (applyOp st op) c u := by
  intro c u
  by_cases hr : op = .resetWarn c u
  · rw [(getWarn_step st op c u).1 hr]
  · exact le_trans (h c u) ((getWarn_step st op c u).2 hr)

/-- C8: warning counts are always non-negative in every state reachable from
the empty store, and across any single store operation a pair's count never
decreases — except that an explicit reset of that exact pair sets it to 0. -/
theorem warning_count_invariant :
    (∀ (ops : List StoreOp) (c u : Int), 0 ≤ getWarn (applyOps ops initState) c u) ∧
    (∀ (st : BotState) (op : StoreOp) (c u : Int),
      (op = .resetWarn c u → getWarn (applyOp st op) c u = 0) ∧
      (op ≠ .resetWarn c u → getWarn st c u ≤ getWarn (applyOp st op) c u)) := by
  constructor
  · have main : ∀ (ops : List StoreOp) (st : BotState), (∀ c u, 0 ≤ getWarn st c u) →
        ∀ c u, 0 ≤ getWarn (applyOps ops st) c u := by
      intro ops
      induction ops with
      | nil => intro st h c u; exact h c u
      | cons op ops ih =>
        intro st h
        exact ih (applyOp st op) (getWarn_nonneg_invariant st h op)
    intro ops c u
    exact main ops initState (fun c u => le_refl 0) c u
  · exact getWarn_step

/-- C8 witness: a concrete increment then reset on the pair `(1, 2)`. -/
theorem warning_count_invariant_witness :
    0 ≤ getWarn (applyOps [.incWarn 1 2, .incWarn 1 2] initState) 1 2 ∧
    getWarn (applyOp (applyOps [.incWarn 1 2] initState) (.resetWarn 1 2)) 1 2 = 0 ∧
    getWarn (applyOps [.incWarn 1 2] initState) 1 2 ≤
      getWarn (applyOp (applyOps [.incWarn 1 2] initState) (.incWarn 1 2)) 1 2 :=
  ⟨warning_count_invariant.1 [.incWarn 1 2, .incWarn 1 2] 1 2,
   (warning_count_invariant.2 (applyOps [.incWarn 1 2] initState) (.resetWarn 1 2) 1 2).1 rfl,
   (warning_count_invariant.2 (applyOps [.incWarn 1 2] initState) (.incWarn 1 2) 1 2).2
     (by decide)⟩

/-! ## Claim C3 — unban and the ban ledger -/

/-- Gateway calls issued by the embedded handlers, in order. -/
inductive Action where
  | deleteMsg
  | notifyWarn (count : Int) (limit : Nat)
  | banReq
  | notifyBanned
  | unbanReq
  deriving DecidableEq, Repr

/-- `/unban` in the polling variant (`TGBot.py`, admin path with a numeric
target): call the gateway, and clear the ledger entry only when the gateway
call succeeded (`ok`); a gateway exception is caught and reported. -/
def cmd_unban_polling (ok : Bool) (st : BotState) (c target : Int) : BotState × List Action :=
  if ok then (unban_user_record st c target, [Action.unbanReq])
  else (st, [Action.unbanReq])

/-- `/unban` in the webhook variant (`TGBot2.py`, admin path with a numeric
target): only the gateway is called; no state-store field is touched
regardless of the outcome. -/
def cmd_unban_webhook (_ok : Bool) (st : BotState) (c target : Int) : BotState × List Action :=
  (st, [Action.unbanReq])

/-- Every per-chat ban-ledger list is duplicate-free. -/
def NodupLedgers (st : BotState) : Prop :=
  ∀ c : Int, (bannedList st c).Nodup

theorem bannedList_ban_record_self (st : BotState) (c u : Int) :
    bannedList (ban_user_record st c u) c =
      if u ∈ bannedList st c then bannedList st c else bannedList st c ++ [u] := by
  simp [ban_user_record, bannedList, getA_setA_self]

theorem bannedList_ban_record_other (st : BotState) (c u c' : Int) (h : c' ≠ c) :
    bannedList (ban_user_record st c u) c' = bannedList st c' := by
  simp [ban_user_record, bannedList, getA_setA_ne _ _ _ _ h]

theorem nodup_ban_record (st : BotState) (c u : Int) (h : NodupLedgers st) :
    NodupLedgers (ban_user_record st c u) := by
  intro c'
  by_cases hc : c' = c
  · subst hc
    rw [bannedList_ban_record_self]
    by_cases hm : u ∈ bannedList st c'
    · simpa [hm] using h c'
    · simp only [hm, if_false]
      exact List.nodup_append.mpr ⟨h c', List.nodup_singleton u, by simpa using hm⟩
  · rw [bannedList_ban_record_other st c u c' hc]
    exact h c'

theorem nodup_unban_record (st : BotState) (c u : Int) (h : NodupLedgers st) :
    NodupLedgers (unban_user_record st c u) := by
  intro c'
  unfold unban_user_record
  cases hc : getA st.banned c with
  | none => exact h c'
  | some l =>
    by_cases hm : u ∈ l
    · simp only [hm, if_true]
      by_cases hcc : c' = c
      · subst hcc
        have hl : bannedList st c' = l := by simp [bannedList, hc]
        simpa [bannedList, getA_setA_self] using (hl ▸ h c' : l.Nodup).erase u
      · simpa [bannedList, getA_setA_ne _ _ _ _ hcc] using h c'
    · simp only [hm, if_false]
      exact h c'

theorem bannedList_untouched_by_warnings (st : BotState) (c u : Int) :
    (increment_warning st c u).1.banned = st.banned ∧
    (reset_warnings st c u).banned = st.banned := by
  constructor
  · rfl
  · unfold reset_warnings
    split
    · rfl
    · split <;> rfl

theorem bannedList_untouched_by_register (st : BotState) (u c : Int) :
    (ensure_user_registered st u c).banned = st.banned := by
  unfold ensure_user_registered
  by_cases h1 : (getA st.users u).isSome <;> simp [h1] <;> split <;> rfl

theorem nodup_step (st : BotState) (op : StoreOp) (h : NodupLedgers st) :
    NodupLedgers (applyOp st op) := by
  cases op with
  | incWarn c u =>
    intro c'
    simpa [bannedList, (bannedList_untouched_by_warnings st c u).1] using h c'
  | resetWarn c u =>
    intro c'
    simpa [applyOp, bannedList, (bannedList_untouched_by_warnings st c u).2] using h c'
  | banRec c u => exact nodup_ban_record st c u h
  | unbanRec c u => exact nodup_unban_record st c u h
  | register u c =>
    intro c'
    simpa [applyOp, bannedList, bannedList_untouched_by_register st u c] using h c'
  | setConf c ts => exact h

/-- C3 counterexample: in the webhook variant, `/unban` does **not** clear the
pair's ban-ledger entry — after banning `(1, 2)` and then unbanning it, the
pair is still recorded as banned, refuting the claim that the unban operation
clears the ledger entry for every pair. -/
theorem unban_webhook_keeps_ledger_entry :
    is_user_banned (cmd_unban_webhook true (ban_user_record initState 1 2) 1 2).1 1 2 = true := by
  decide

/-- C3 (amended): in the polling variant `unban_user_record` clears the
pair's entry (on every duplicate-free ledger, an invariant of all reachable
states) and is a silent no-op on a pair that is not in the ledger; in the
webhook variant `/unban` calls the gateway but leaves the state store — in
particular the ban ledger — entirely unchanged. -/
theorem unban_ledger_behaviour :
    (∀ (ok : Bool) (st : BotState) (c u : Int), (cmd_unban_webhook ok st c u).1 = st) ∧
    (∀ (st : BotState) (c u : Int), u ∉ bannedList st c → unban_user_record st c u = st) ∧
    (∀ (st : BotState) (c u : Int), NodupLedgers st →
      is_user_banned (unban_user_record st c u) c u = false) ∧
    (∀ ops : List StoreOp, NodupLedgers (applyOps ops initState)) := by
  refine ⟨fun ok st c u => rfl, ?_, ?_, ?_⟩
  · intro st c u hu
    unfold unban_user_record
    cases hc : getA st.banned c with
    | none => rfl
    | some l =>
      have : u ∉ l := by
        intro hm
        exact hu (by simpa [bannedList, hc] using hm)
      simp [this]
  · intro st c u h
    unfold unban_user_record
    cases hc : getA st.banned c with
    | none =>
      simp [is_user_banned, bannedList, hc, List.contains, List.elem_iff]
    | some l =>
      by_cases hm : u ∈ l
      · have hl : bannedList st c = l := by simp [bannedList, hc]
        have hnd : l.Nodup := hl ▸ h c
        simp only [hm, if_true]
        simp [is_user_banned, bannedList, getA_setA_self, List.contains, List.elem_iff,
          hnd.not_mem_erase]
      · simp only [hm, if_false]
        simp [is_user_banned, bannedList, hc, List.contains, List.elem_iff, hm]
  · have main : ∀ (ops : List StoreOp) (st : BotState), NodupLedgers st →
        NodupLedgers (applyOps ops st) := by
      intro ops
      induction ops with
      | nil => intro st h; exact h
      | cons op ops ih => intro st h; exact ih (applyOp st op) (nodup_step st op h)
    intro ops
    exact main ops initState (fun c => by simp [bannedList, initState])

/-- C3 witness: concrete instances of the amended conjuncts. -/
theorem unban_ledger_behaviour_witness :
    (cmd_unban_webhook true (ban_user_record initState 1 2) 1 2).1 =
      ban_user_record initState 1 2 ∧
    unban_user_record initState 5 7 = initState ∧
    is_user_banned (unban_user_record (ban_user_record initState 1 2) 1 2) 1 2 = false ∧
    NodupLedgers (applyOps [.banRec 1 2, .banRec 1 2] initState) :=
  ⟨unban_ledger_behaviour.1 true (ban_user_record initState 1 2) 1 2,
   unban_ledger_behaviour.2.1 initState 5 7 (by decide),
   unban_ledger_behaviour.2.2.1 (ban_user_record initState 1 2) 1 2
     (unban_ledger_behaviour.2.2.2 [.banRec 1 2]),
   unban_ledger_behaviour.2.2.2 [.banRec 1 2, .banRec 1 2]⟩

/-! ## Claim C2 — loading the durable state -/

/-- The raw parsed content of `data.json`: any top-level key may be absent
from the persisted object. -/
structure PersistedObj where
  users : Option (List (Int × List Int)) := none
  warnings : Option (List (Int × List (Int × Int))) := none
  banned : Option (List (Int × List Int)) := none
  files : Option (List (String × (String × String))) := none
  channels : Option (List Int) := none
  chats_config : Option (List (Int × StoredConf)) := none
  deriving DecidableEq, Repr

/-- States of the durable file, partitioned by what opening and parsing it
would do: missing, unreadable (`open` raises), unparsable (`json.load`
raises), or readable with parsed content `obj`. -/
inductive FileState where
  | absent
  | unreadable
  | corrupt
  | valid (obj : PersistedObj)
  deriving DecidableEq, Repr

/-- `DEFAULT_DATA` of the webhook variant: six top-level keys, all empty. -/
def defaultObj2 : PersistedObj :=
  { users := some [], warnings := some [], banned := some [], files := some [],
    channels := some [], chats_config := some [] }

/-- `DEFAULT_DATA` of the polling variant: five top-level keys (it has no
`chats_config`). -/
def defaultObj1 : PersistedObj :=
  { users := some [], warnings := some [], banned := some [], files := some [],
    channels := some [] }

/-- Open and parse the durable file (callers check existence first, so
`absent` is out of this function's domain and mapped to an error). -/
def readParse : FileState → Except Unit PersistedObj
  | .absent => .error ()
  | .unreadable => .error ()
  | .corrupt => .error ()
  | .valid obj => .ok obj

/-- A fully-keyed object as an in-memory state. -/
def objToState (obj : PersistedObj) : BotState :=
  { users := obj.users.getD [], warnings := obj.warnings.getD [],
    banned := obj.banned.getD [], files := obj.files.getD [],
    channels := obj.channels.getD [], chats_config := obj.chats_config.getD [] }

/-- The key-filling loop of the webhook variant's `load_data`: any missing
top-level key is replaced by its `DEFAULT_DATA` value. -/
def fillKeys (obj : PersistedObj) : PersistedObj :=
  { users := some (obj.users.getD []), warnings := some (obj.warnings.getD []),
    banned := some (obj.banned.getD []), files := some (obj.files.getD []),
    channels := some (obj.channels.getD []),
    chats_config := some (obj.chats_config.getD []) }

/-- `load_data` of the webhook variant: a missing file is initialised and
persisted with the defaults; otherwise the file is read and parsed inside
`try`, any failure being caught and the defaults returned.  The second
component is the durable file state afterwards. -/
def load_data_webhook (fs : FileState) : BotState × FileState :=
  match fs with
  | .absent => (objToState defaultObj2, .valid defaultObj2)
  | _ =>
    match readParse fs with
    | .ok obj => (objToState (fillKeys obj), fs)
    | .error _ => (objToState defaultObj2, fs)

/-- `load_data` of the polling variant: a missing file is initialised and
persisted with the defaults, but reading and parsing run with **no**
exception handler, so a failure propagates to the caller; a parsed object is
returned as-is (missing keys are not filled in). -/
def load_data_polling (fs : FileState) : Except Unit (PersistedObj × FileState) :=
  match fs with
  | .absent => .ok (defaultObj1, .valid defaultObj1)
  | _ => (readParse fs).map (fun obj => (obj, fs))

/-- C2 counterexample: in the polling variant a corrupt (or unreadable)
durable file makes the load operation raise instead of returning the empty
default structure, refuting the claim that loading never lets an error out. -/
theorem load_polling_corrupt_raises :
    load_data_polling FileState.corrupt = Except.error () := rfl

/-- C2 (amended): on a missing file both variants initialise and persist the
empty default structure; on an unreadable or corrupt file the webhook
variant catches the failure and returns the empty default structure, while
the polling variant lets the error propagate out of the load operation. -/
theorem load_data_startup_behaviour :
    load_data_webhook FileState.absent = (initState, .valid defaultObj2) ∧
    load_data_webhook FileState.unreadable = (initState, .unreadable) ∧
    load_data_webhook FileState.corrupt = (initState, .corrupt) ∧
    (∀ obj, load_data_webhook (.valid obj) = (objToState (fillKeys obj), .valid obj)) ∧
    load_data_polling FileState.absent = .ok (defaultObj1, .valid defaultObj1) ∧
    load_data_polling FileState.unreadable = .error () ∧
    load_data_polling FileState.corrupt = .error () :=
  ⟨rfl, rfl, rfl, fun obj => rfl, rfl, rfl, rfl⟩

/-! ## Link detection (webhook variant)

`URL_RE`, `IP_RE`, `SHORTENER_RE` and `normalize_obfuscated` of `TGBot2.py`.
The regexes are embedded as explicit scanners over `List Char`; a `search` is
the disjunction "some suffix position matches", which is what the Boolean use
of `re.search` observes.  `\w`, `\d` and `\s` are the ASCII character
classes. -/

/-- Python `\s` (ASCII). -/
def isSpaceChar (c : Char) : Bool :=
  c == ' ' || c == '\t' || c == '\n' || c == '\r' || c == '\x0b' || c == '\x0c'

/-- Python `\w` (ASCII). -/
def isWordChar (c : Char) : Bool := c.isAlphanum || c == '_'

/-- The class `[\w\-]`. -/
def isHostChar (c : Char) : Bool := isWordChar c || c == '-'

/-- The class `[\w\-\./?=&%]`. -/
def isPathChar (c : Char) : Bool :=
  isWordChar c || c == '-' || c == '.' || c == '/' || c == '?' || c == '=' ||
    c == '&' || c == '%'

/-- The class `[\w\-.~:/?#\[\]@!$&'()*+,;=%]`. -/
def isUrlChar (c : Char) : Bool :=
  isWordChar c ||
    ['-', '.', '~', ':', '/', '?', '#', '[', ']', '@', '!', '$', '&', '\'', '(', ')',
      '*', '+', ',', ';', '=', '%'].contains c

/-- `\sdot\s` at the head of the text. -/
def spaceDotAt (l : List Char) : Bool :=
  match l with
  | w1 :: c1 :: c2 :: c3 :: rest =>
    isSpaceChar w1 && (c1.toLower == 'd') && (c2.toLower == 'o') && (c3.toLower == 't') &&
      (match rest with | w2 :: _ => isSpaceChar w2 | [] => false)
  | _ => false

/-- The leftmost-alternative match of `\[\.\]|\{\.\}|\(dot\)|\sdot\s`
(case-insensitive) at the head of the text, as the length it consumes.  The
alternatives start with distinct character classes, so at most one can match
at a given position. -/
def dotMatch (l : List Char) : Option Nat :=
  if l.take 3 = ['[', '.', ']'] then some 3
  else if l.take 3 = ['\x7b', '.', '\x7d'] then some 3
  else if (l.take 5).map Char.toLower = ['(', 'd', 'o', 't', ')'] then some 5
  else if spaceDotAt l then some 5
  else none

/-- `\sat\s` at the head of the text. -/
def spaceAtAt (l : List Char) : Bool :=
  match l with
  | w1 :: c1 :: c2 :: rest =>
    isSpaceChar w1 && (c1.toLower == 'a') && (c2.toLower == 't') &&
      (match rest with | w2 :: _ => isSpaceChar w2 | [] => false)
  | _ => false

/-- The match of `\[at\]|\(at\)|\sat\s` (case-insensitive) at the head. -/
def atMatch (l : List Char) : Option Nat :=
  if (l.take 4).map Char.toLower = ['[', 'a', 't', ']'] then some 4
  else if (l.take 4).map Char.toLower = ['(', 'a', 't', ')'] then some 4
  else if spaceAtAt l then some 4
  else none

/-- One `re.sub` scan: while the skip counter is positive the remaining
characters of a match are dropped (its replacement was already emitted); at a
fresh position a match of length `k` emits the replacement `r` and skips the
rest of the match; otherwise one character is copied.  Scanning resumes after
a match, exactly as `re.sub` does. -/
def subScan (m : List Char → Option Nat) (r : Char) : Nat → List Char → List Char
  | _ + 1, [] => []
  | n + 1, _ :: cs => subScan m r n cs
  | 0, [] => []
  | 0, c :: cs =>
    match m (c :: cs) with
    | some k => r :: subScan m r (k - 1) cs
    | none => c :: subScan m r 0 cs

/-- `normalize_obfuscated`: the dot substitution, then the at substitution. -/
def normalize_obfuscated (t : List Char) : List Char :=
  subScan atMatch '@' 0 (subScan dotMatch '.' 0 t)

/-- Strip a case-insensitive literal (given lowercase) from the head. -/
def stripCI : List Char → List Char → Option (List Char)
  | [], l => some l
  | _ :: _, [] => none
  | p :: ps, c :: cs => if c.toLower == p then stripCI ps cs else none

/-- `://` followed by at least one URL character. -/
def schemeTail (r : List Char) : Bool :=
  match stripCI [':', '/', '/'] r with
  | none => false
  | some r2 =>
    match r2 with
    | c :: _ => isUrlChar c
    | [] => false

/-- The first `URL_RE` alternative, `https?://[…]+`, at the head. -/
def schemeHere (l : List Char) : Bool :=
  match stripCI ['h', 't', 't', 'p'] l with
  | none => false
  | some r1 =>
    schemeTail r1 ||
      (match r1 with
       | c :: r2 => (c.toLower == 's') && schemeTail r2
       | [] => false)

/-- After `www.` and one host character: more host characters, then `'.'`,
then at least one path character.  `'.'` is not a host character, so the
separating dot of `[\w\-]+\.[\w\-\./?=&%]+` is forced to be the first
non-host character; this deterministic scan is therefore equivalent to the
regex with backtracking. -/
def wwwHost2 : List Char → Bool
  | [] => false
  | c :: cs =>
    if isHostChar c then wwwHost2 cs
    else if c == '.' then (match cs with | d :: _ => isPathChar d | [] => false)
    else false

/-- `[\w\-]+\.[\w\-\./?=&%]+` at the head. -/
def wwwHost : List Char → Bool
  | [] => false
  | c :: cs => isHostChar c && wwwHost2 cs

/-- The second `URL_RE` alternative, `www\.[\w\-]+\.[…]+`, at the head. -/
def wwwHere (l : List Char) : Bool :=
  match stripCI ['w', 'w', 'w', '.'] l with
  | none => false
  | some r => wwwHost r

/-- The TLD alternation of the third `URL_RE` alternative. -/
def TLD_LIST : List (List Char) :=
  [['c', 'o', 'm'], ['n', 'e', 't'], ['o', 'r', 'g'], ['i', 'n'], ['i', 'o'],
   ['i', 'n', 'f', 'o'], ['b', 'i', 'z'], ['c', 'o'], ['m', 'e'], ['x', 'y', 'z'],
   ['t', 'k']]

/-- A recognised TLD at the head followed by a word boundary. -/
def tldHere (l : List Char) : Bool :=
  TLD_LIST.any fun tld =>
    match stripCI tld l with
    | none => false
    | some r => match r with | [] => true | c :: _ => !isWordChar c

/-- The third alternative, `[\w\-]+\.(com|…)\b`: a match exists somewhere in
the text iff at some position a host character immediately precedes a `'.'`
followed by a TLD and a word boundary, which is what the suffix scan below
checks at each position. -/
def bareTldHere : List Char → Bool
  | c1 :: '.' :: rest => isHostChar c1 && tldHere rest
  | _ => false

/-- `URL_RE.search` as a Boolean: some suffix starts a match. -/
def urlSearch : List Char → Bool
  | [] => false
  | c :: cs => schemeHere (c :: cs) || wwwHere (c :: cs) || bareTldHere (c :: cs) || urlSearch cs

/-- Exactly `n` ASCII digits at the head, returning the rest. -/
def takeDigits : Nat → List Char → Option (List Char)
  | 0, l => some l
  | _ + 1, [] => none
  | n + 1, c :: cs => if c.isDigit then takeDigits n cs else none

/-- The possible rests after `\d{1,3}\.` at the head (backtracking tries each
run length). -/
def ipDotSeg (l : List Char) : List (List Char) :=
  [1, 2, 3].filterMap fun a =>
    (takeDigits a l).bind fun r =>
      match r with
      | '.' :: r2 => some r2
      | _ => none

/-- `\d{1,3}\b` at the head. -/
def ipEnd (l : List Char) : Bool :=
  [1, 2, 3].any fun a =>
    match takeDigits a l with
    | some [] => true
    | some (c :: _) => !isWordChar c
    | none => false

/-- `(?:\d{1,3}\.){3}\d{1,3}\b` at the head (the left boundary is the
scanner's job). -/
def ipHere (l : List Char) : Bool :=
  (ipDotSeg l).any fun r1 => (ipDotSeg r1).any fun r2 => (ipDotSeg r2).any fun r3 => ipEnd r3

/-- `IP_RE.search`: scan every position, with the previous character for the
left word boundary (the pattern starts with a digit, so the boundary holds
iff the previous character is not a word character). -/
def ipScan (prev : Option Char) : List Char → Bool
  | [] => false
  | c :: cs =>
    ((match prev with | none => true | some p => !isWordChar p) && ipHere (c :: cs)) ||
      ipScan (some c) cs

def ipSearch (l : List Char) : Bool := ipScan none l

/-- `SHORTENER_DOMAINS`, lowercase. -/
def SHORTENER_LIST : List (List Char) :=
  [['b', 'i', 't', '.', 'l', 'y'], ['t', '.', 'c', 'o'],
   ['t', 'i', 'n', 'y', 'u', 'r', 'l', '.', 'c', 'o', 'm'], ['g', 'o', 'o', '.', 'g', 'l'],
   ['i', 's', '.', 'g', 'd'], ['o', 'w', '.', 'l', 'y']]

/-- One of the shortener domains at the head, followed by a word boundary. -/
def shortHere (l : List Char) : Bool :=
  SHORTENER_LIST.any fun s =>
    match stripCI s l with
    | none => false
    | some r => match r with | [] => true | c :: _ => !isWordChar c

/-- `SHORTENER_RE.search` (each domain starts with a letter, so the left
boundary holds iff the previous character is not a word character). -/
def shortScan (prev : Option Char) : List Char → Bool
  | [] => false
  | c :: cs =>
    ((match prev with | none => true | some p => !isWordChar p) && shortHere (c :: cs)) ||
      shortScan (some c) cs

def shortSearch (l : List Char) : Bool := shortScan none l

/-- `text_contains_link`: empty text is falsy; otherwise normalise the
obfuscations and try `URL_RE`, `IP_RE`, `SHORTENER_RE` in turn. -/
def text_contains_link (text : List Char) : Bool :=
  if text.isEmpty then false
  else
    let t := normalize_obfuscated text
    urlSearch t || ipSearch t || shortSearch t


theorem subScan_skip (m : List Char → Option Nat) (r : Char) :
    ∀ (n : Nat) (l : List Char), subScan m r n l = subScan m r 0 (l.drop n) := by
  intro n
  induction n with
  | zero => intro l; simp
  | succ n ih =>
    intro l
    cases l with
    | nil => simp [subScan]
    | cons c cs => simpa [subScan] using ih cs

theorem dotMatch_len (l : List Char) (k : Nat) (h : dotMatch l = some k) : k = 3 ∨ k = 5 := by
  unfold dotMatch at h
  split_ifs at h <;> simp_all

theorem atMatch_len (l : List Char) (k : Nat) (h : atMatch l = some k) : k = 4 := by
  unfold atMatch at h
  split_ifs at h <;> simp_all

/-- A character that can start none of the dot obfuscation patterns. -/
theorem dotMatch_skip_head (c : Char) (v : List Char)
    (h1 : c ≠ '[') (h2 : c ≠ '\x7b') (h3 : c.toLower ≠ '(') (h4 : isSpaceChar c = false) :
    dotMatch (c :: v) = none := by
  rcases v with _ | ⟨a, _ | ⟨b, _ | ⟨d, v⟩⟩⟩ <;>
    simp [dotMatch, spaceDotAt, h1, h2, h3, h4]

theorem atMatch_skip_head (c : Char) (v : List Char)
    (h1 : c.toLower ≠ '[') (h2 : c.toLower ≠ '(') (h3 : isSpaceChar c = false) :
    atMatch (c :: v) = none := by
  rcases v with _ | ⟨a, _ | ⟨b, v⟩⟩ <;>
    simp [atMatch, spaceAtAt, h1, h2, h3]


/-- Stepping through a region in which no match starts: the scan copies it
verbatim. -/
theorem subScan_safe (m : List Char → Option Nat) (r : Char) (P rest : List Char)
    (h : ∀ i, i < P.length → m (P.drop i ++ rest) = none) :
    subScan m r 0 (P ++ rest) = P ++ subScan m r 0 rest := by
  induction P with
  | nil => simp
  | cons c P ih =>
    have h0 : m ((c :: P) ++ rest) = none := by simpa using h 0 (by simp)
    have step : subScan m r 0 ((c :: P) ++ rest) = c :: subScan m r 0 (P ++ rest) := by
      cases hps : P ++ rest with
      | nil => simp only [List.cons_append, hps] at h0 ⊢; simp [subScan, h0]
      | cons d ds => simp only [List.cons_append, hps] at h0 ⊢; simp [subScan, h0]
    rw [step, ih (fun i hi => by simpa using h (i + 1) (by simpa using Nat.succ_lt_succ hi))]
    rfl

/-- A match consumed at the head of the scan. -/
theorem subScan_match_step (m : List Char → Option Nat) (r : Char) (c : Char) (cs : List Char)
    (k : Nat) (h : m (c :: cs) = some k) (hk : 1 ≤ k) :
    subScan m r 0 (c :: cs) = r :: subScan m r 0 ((c :: cs).drop k) := by
  have hstep : subScan m r 0 (c :: cs) = r :: subScan m r (k - 1) cs := by
    simp [subScan, h]
  rw [hstep, subScan_skip]
  cases k with
  | zero => omega
  | succ k => simp


/-- If no pattern match can begin inside the region `S` (expressed through
`hL0`: the scan copies `S ++ v` to `S' ++ scan v`) nor straddle into it from
the at most four characters before it (`h1`–`h4`), then the scan of any text
containing `S` contains `S'`. -/
theorem subScan_preserves (m : List Char → Option Nat) (r : Char) (S S' : List Char)
    (hlen : ∀ l k, m l = some k → 1 ≤ k ∧ k ≤ 5)
    (hL0 : ∀ v, subScan m r 0 (S ++ v) = S' ++ subScan m r 0 v)
    (h1 : ∀ a v k, m (a :: (S ++ v)) = some k → k ≤ 1)
    (h2 : ∀ a b v k, m (a :: b :: (S ++ v)) = some k → k ≤ 2)
    (h3 : ∀ a b c v k, m (a :: b :: c :: (S ++ v)) = some k → k ≤ 3)
    (h4 : ∀ a b c d v k, m (a :: b :: c :: d :: (S ++ v)) = some k → k ≤ 4) :
    ∀ t u v, t = u ++ S ++ v → ∃ u' v', subScan m r 0 t = u' ++ S' ++ v' := by
  have main : ∀ n t u v, t.length = n → t = u ++ S ++ v →
      ∃ u' v', subScan m r 0 t = u' ++ S' ++ v' := by
    intro n
    induction n using Nat.strong_induction_on with
    | _ n ih =>
      intro t u v hn ht
      cases u with
      | nil =>
        subst ht
        exact ⟨[], subScan m r 0 v, by simpa using hL0 v⟩
      | cons a u1 =>
        have ht' : t = a :: (u1 ++ S ++ v) := by simpa using ht
        subst ht'
        cases hm : m (a :: (u1 ++ S ++ v)) with
        | none =>
          have step : subScan m r 0 (a :: (u1 ++ S ++ v)) =
              a :: subScan m r 0 (u1 ++ S ++ v) := by
            simp only [subScan, hm]
          obtain ⟨u', v', hres⟩ :=
            ih (u1 ++ S ++ v).length (by simp at hn ⊢; omega) (u1 ++ S ++ v) u1 v rfl rfl
          exact ⟨a :: u', v', by rw [step, hres]; rfl⟩
        | some k =>
          obtain ⟨hk1, hk5⟩ := hlen _ _ hm
          have hkle : k ≤ (a :: u1).length := by
            rcases u1 with _ | ⟨b, _ | ⟨c, _ | ⟨d, _ | ⟨e, u5⟩⟩⟩⟩
            · have hle := h1 a v k (by simpa using hm)
              simpa using hle
            · have hle := h2 a b v k (by simpa using hm)
              simp only [List.length_cons, List.length_nil]
              omega
            · have hle := h3 a b c v k (by simpa using hm)
              simp only [List.length_cons, List.length_nil]
              omega
            · have hle := h4 a b c d v k (by simpa using hm)
              simp only [List.length_cons, List.length_nil]
              omega
            · simp only [List.length_cons]
              omega
          have hstep := subScan_match_step m r a (u1 ++ S ++ v) k hm hk1
          have hdrop : (a :: (u1 ++ S ++ v)).drop k = ((a :: u1).drop k) ++ S ++ v := by
            have hsplit : a :: (u1 ++ S ++ v) = (a :: u1) ++ (S ++ v) := by simp
            rw [hsplit, List.drop_append_of_le_length hkle, List.append_assoc]
          obtain ⟨u', v', hres⟩ :=
            ih ((a :: (u1 ++ S ++ v)).drop k).length
              (by simp at hn ⊢; omega)
              ((a :: (u1 ++ S ++ v)).drop k) ((a :: u1).drop k) v rfl hdrop
          exact ⟨r :: u', v', by rw [hstep, hres]; rfl⟩
  intro t u v ht
  exact main t.length t u v rfl ht


/-- `"visit http://example.com now"`. -/
def phraseHttp : List Char :=
  ['v', 'i', 's', 'i', 't', ' ', 'h', 't', 't', 'p', ':', '/', '/', 'e', 'x', 'a', 'm',
   'p', 'l', 'e', '.', 'c', 'o', 'm', ' ', 'n', 'o', 'w']

/-- `"visit example[.]com now"`. -/
def phraseObf : List Char :=
  ['v', 'i', 's', 'i', 't', ' ', 'e', 'x', 'a', 'm', 'p', 'l', 'e', '[', '.', ']',
   'c', 'o', 'm', ' ', 'n', 'o', 'w']

/-- What the dot substitution makes of `phraseObf`. -/
def phraseNorm : List Char :=
  ['v', 'i', 's', 'i', 't', ' ', 'e', 'x', 'a', 'm', 'p', 'l', 'e', '.',
   'c', 'o', 'm', ' ', 'n', 'o', 'w']

-- No dot obfuscation can start one to four characters before a region that
-- begins with "visit": the pattern tail that would reach into the region is
-- refuted by the region's first characters.
theorem dotMatch_straddle1 (a : Char) (r : List Char) (k : Nat)
    (h : dotMatch (a :: 'v' :: 'i' :: 's' :: 'i' :: r) = some k) : k ≤ 1 := by
  have hnone : dotMatch (a :: 'v' :: 'i' :: 's' :: 'i' :: r) = none := by
    simp +decide [dotMatch, spaceDotAt, isSpaceChar]
  rw [hnone] at h
  cases h

theorem dotMatch_straddle2 (a b : Char) (r : List Char) (k : Nat)
    (h : dotMatch (a :: b :: 'v' :: 'i' :: 's' :: r) = some k) : k ≤ 2 := by
  have hnone : dotMatch (a :: b :: 'v' :: 'i' :: 's' :: r) = none := by
    simp +decide [dotMatch, spaceDotAt, isSpaceChar]
  rw [hnone] at h
  cases h

theorem dotMatch_straddle3 (a b c : Char) (r : List Char) (k : Nat)
    (h : dotMatch (a :: b :: c :: 'v' :: 'i' :: r) = some k) : k ≤ 3 := by
  have h3 : k = 3 := by
    simp +decide [dotMatch, spaceDotAt, isSpaceChar] at h
    split_ifs at h <;> simp_all
  omega

theorem dotMatch_straddle4 (a b c d : Char) (r : List Char) (k : Nat)
    (h : dotMatch (a :: b :: c :: d :: 'v' :: r) = some k) : k ≤ 4 := by
  have h3 : k = 3 := by
    simp +decide [dotMatch, spaceDotAt, isSpaceChar] at h
    split_ifs at h <;> simp_all
  omega

theorem atMatch_straddle1 (a : Char) (r : List Char) (k : Nat)
    (h : atMatch (a :: 'v' :: 'i' :: 's' :: r) = some k) : k ≤ 1 := by
  have hnone : atMatch (a :: 'v' :: 'i' :: 's' :: r) = none := by
    simp +decide [atMatch, spaceAtAt, isSpaceChar]
  rw [hnone] at h
  cases h

theorem atMatch_straddle2 (a b : Char) (r : List Char) (k : Nat)
    (h : atMatch (a :: b :: 'v' :: 'i' :: r) = some k) : k ≤ 2 := by
  have hnone : atMatch (a :: b :: 'v' :: 'i' :: r) = none := by
    simp +decide [atMatch, spaceAtAt, isSpaceChar]
  rw [hnone] at h
  cases h

theorem atMatch_straddle3 (a b c : Char) (r : List Char) (k : Nat)
    (h : atMatch (a :: b :: c :: 'v' :: r) = some k) : k ≤ 3 := by
  have hnone : atMatch (a :: b :: c :: 'v' :: r) = none := by
    simp +decide [atMatch, spaceAtAt, isSpaceChar]
  rw [hnone] at h
  cases h


theorem subScan_copy_step (m : List Char → Option Nat) (r : Char) (c : Char) (cs : List Char)
    (h : m (c :: cs) = none) : subScan m r 0 (c :: cs) = c :: subScan m r 0 cs := by
  simp [subScan, h]

/-- A dot pattern cannot match at a position whose first character starts no
pattern alternative other than possibly `\sdot\s`, when the following
character is not a `d`. -/
theorem dotMatch_space_skip (w1 c1 c2 c3 : Char) (v : List Char)
    (hb : w1 ≠ '[') (hbr : w1 ≠ '\x7b') (hp : w1.toLower ≠ '(')
    (hd : c1.toLower ≠ 'd') :
    dotMatch (w1 :: c1 :: c2 :: c3 :: v) = none := by
  simp [dotMatch, spaceDotAt, hb, hbr, hp, hd]

theorem atMatch_space_skip (w1 c1 c2 : Char) (v : List Char)
    (hb : w1.toLower ≠ '[') (hp : w1.toLower ≠ '(') (ha : c1.toLower ≠ 'a') :
    atMatch (w1 :: c1 :: c2 :: v) = none := by
  simp [atMatch, spaceAtAt, hb, hp, ha]

theorem subDot_phraseHttp (v : List Char) :
    subScan dotMatch '.' 0 (phraseHttp ++ v) = phraseHttp ++ subScan dotMatch '.' 0 v := by
  simp only [phraseHttp, List.cons_append, List.nil_append]
  simp +decide only [subScan_copy_step, dotMatch_skip_head, dotMatch_space_skip]


theorem subDot_phraseObf (v : List Char) :
    subScan dotMatch '.' 0 (phraseObf ++ v) = phraseNorm ++ subScan dotMatch '.' 0 v := by
  have hbr : subScan dotMatch '.' 0
      ('[' :: '.' :: ']' :: 'c' :: 'o' :: 'm' :: ' ' :: 'n' :: 'o' :: 'w' :: v) =
      '.' :: subScan dotMatch '.' 0 ('c' :: 'o' :: 'm' :: ' ' :: 'n' :: 'o' :: 'w' :: v) := by
    rw [subScan_match_step dotMatch '.' '[' _ 3 (by simp +decide [dotMatch]) (by omega)]
    rfl
  simp only [phraseObf, phraseNorm, List.cons_append, List.nil_append]
  simp +decide only [subScan_copy_step, dotMatch_skip_head, dotMatch_space_skip, hbr]

theorem subAt_phraseHttp (v : List Char) :
    subScan atMatch '@' 0 (phraseHttp ++ v) = phraseHttp ++ subScan atMatch '@' 0 v := by
  simp only [phraseHttp, List.cons_append, List.nil_append]
  simp +decide only [subScan_copy_step, atMatch_skip_head, atMatch_space_skip]

theorem subAt_phraseNorm (v : List Char) :
    subScan atMatch '@' 0 (phraseNorm ++ v) = phraseNorm ++ subScan atMatch '@' 0 v := by
  simp only [phraseNorm, List.cons_append, List.nil_append]
  simp +decide only [subScan_copy_step, atMatch_skip_head, atMatch_space_skip]


theorem dotMatch_bounds : ∀ (l : List Char) (k : Nat), dotMatch l = some k → 1 ≤ k ∧ k ≤ 5 := by
  intro l k h
  rcases dotMatch_len l k h with rfl | rfl <;> omega

theorem atMatch_bounds : ∀ (l : List Char) (k : Nat), atMatch l = some k → 1 ≤ k ∧ k ≤ 5 := by
  intro l k h
  rcases atMatch_len l k h with rfl
  omega

/-- `pat` occurs as a contiguous substring of `t`. -/
def occursIn (pat t : List Char) : Prop := ∃ u v, t = u ++ pat ++ v

theorem subDot_keeps_phraseHttp (t : List Char) (h : occursIn phraseHttp t) :
    occursIn phraseHttp (subScan dotMatch '.' 0 t) := by
  obtain ⟨u, v, rfl⟩ := h
  obtain ⟨u', v', hres⟩ := subScan_preserves dotMatch '.' phraseHttp phraseHttp
    dotMatch_bounds subDot_phraseHttp
    (fun a v k hm => dotMatch_straddle1 a _ k (by simpa [phraseHttp] using hm))
    (fun a b v k hm => dotMatch_straddle2 a b _ k (by simpa [phraseHttp] using hm))
    (fun a b c v k hm => dotMatch_straddle3 a b c _ k (by simpa [phraseHttp] using hm))
    (fun a b c d v k hm => dotMatch_straddle4 a b c d _ k (by simpa [phraseHttp] using hm))
    _ u v rfl
  exact ⟨u', v', hres⟩

theorem subAt_keeps_phraseHttp (t : List Char) (h : occursIn phraseHttp t) :
    occursIn phraseHttp (subScan atMatch '@' 0 t) := by
  obtain ⟨u, v, rfl⟩ := h
  obtain ⟨u', v', hres⟩ := subScan_preserves atMatch '@' phraseHttp phraseHttp
    atMatch_bounds subAt_phraseHttp
    (fun a v k hm => atMatch_straddle1 a _ k (by simpa [phraseHttp] using hm))
    (fun a b v k hm => atMatch_straddle2 a b _ k (by simpa [phraseHttp] using hm))
    (fun a b c v k hm => atMatch_straddle3 a b c _ k (by simpa [phraseHttp] using hm))
    (fun a b c d v k hm => le_trans (le_of_eq (atMatch_len _ k hm)) (by omega))
    _ u v rfl
  exact ⟨u', v', hres⟩

theorem subDot_turns_phraseObf (t : List Char) (h : occursIn phraseObf t) :
    occursIn phraseNorm (subScan dotMatch '.' 0 t) := by
  obtain ⟨u, v, rfl⟩ := h
  obtain ⟨u', v', hres⟩ := subScan_preserves dotMatch '.' phraseObf phraseNorm
    dotMatch_bounds subDot_phraseObf
    (fun a v k hm => dotMatch_straddle1 a _ k (by simpa [phraseObf] using hm))
    (fun a b v k hm => dotMatch_straddle2 a b _ k (by simpa [phraseObf] using hm))
    (fun a b c v k hm => dotMatch_straddle3 a b c _ k (by simpa [phraseObf] using hm))
    (fun a b c d v k hm => dotMatch_straddle4 a b c d _ k (by simpa [phraseObf] using hm))
    _ u v rfl
  exact ⟨u', v', hres⟩

theorem subAt_keeps_phraseNorm (t : List Char) (h : occursIn phraseNorm t) :
    occursIn phraseNorm (subScan atMatch '@' 0 t) := by
  obtain ⟨u, v, rfl⟩ := h
  obtain ⟨u', v', hres⟩ := subScan_preserves atMatch '@' phraseNorm phraseNorm
    atMatch_bounds subAt_phraseNorm
    (fun a v k hm => atMatch_straddle1 a _ k (by simpa [phraseNorm] using hm))
    (fun a b v k hm => atMatch_straddle2 a b _ k (by simpa [phraseNorm] using hm))
    (fun a b c v k hm => atMatch_straddle3 a b c _ k (by simpa [phraseNorm] using hm))
    (fun a b c d v k hm => le_trans (le_of_eq (atMatch_len _ k hm)) (by omega))
    _ u v rfl
  exact ⟨u', v', hres⟩

/-- `search` finds a match in any suffix. -/
theorem urlSearch_append_right (p s : List Char) (h : urlSearch s = true) :
    urlSearch (p ++ s) = true := by
  induction p with
  | nil => simpa using h
  | cons a p ih => simp [urlSearch, ih]


theorem urlSearch_phraseHttp_tail (v2 : List Char) :
    urlSearch ('h' :: 't' :: 't' :: 'p' :: ':' :: '/' :: '/' :: 'e' :: 'x' :: 'a' :: 'm' ::
      'p' :: 'l' :: 'e' :: '.' :: 'c' :: 'o' :: 'm' :: ' ' :: 'n' :: 'o' :: 'w' :: v2) = true := by
  simp +decide [urlSearch, schemeHere, schemeTail, stripCI, isUrlChar, isWordChar]

theorem urlSearch_phraseNorm_tail (v2 : List Char) :
    urlSearch ('e' :: '.' :: 'c' :: 'o' :: 'm' :: ' ' :: 'n' :: 'o' :: 'w' :: v2) = true := by
  simp +decide [urlSearch, schemeHere, schemeTail, stripCI, wwwHere, bareTldHere, tldHere,
    TLD_LIST, isHostChar, isWordChar]

theorem link_pos_http (t : List Char) (h : occursIn phraseHttp t) :
    text_contains_link t = true := by
  obtain ⟨u, v, rfl⟩ := h
  have h2 := subAt_keeps_phraseHttp _ (subDot_keeps_phraseHttp _ ⟨u, v, rfl⟩)
  obtain ⟨u2, v2, heq⟩ := h2
  have hurl : urlSearch (normalize_obfuscated (u ++ phraseHttp ++ v)) = true := by
    have hsplit : u2 ++ phraseHttp ++ v2 =
        (u2 ++ ['v', 'i', 's', 'i', 't', ' ']) ++
          ('h' :: 't' :: 't' :: 'p' :: ':' :: '/' :: '/' :: 'e' :: 'x' :: 'a' :: 'm' ::
            'p' :: 'l' :: 'e' :: '.' :: 'c' :: 'o' :: 'm' :: ' ' :: 'n' :: 'o' :: 'w' :: v2) := by
      simp [phraseHttp]
    rw [normalize_obfuscated, heq, hsplit]
    exact urlSearch_append_right _ _ (urlSearch_phraseHttp_tail v2)
  have hne : (u ++ phraseHttp ++ v).isEmpty = false := by cases u <;> rfl
  simp only [List.append_assoc] at hurl
  simp [text_contains_link, hne, hurl]
  exact Or.inr (Or.inl (by simp [phraseHttp]))

theorem link_pos_obf (t : List Char) (h : occursIn phraseObf t) :
    text_contains_link t = true := by
  obtain ⟨u, v, rfl⟩ := h
  have h2 := subAt_keeps_phraseNorm _ (subDot_turns_phraseObf _ ⟨u, v, rfl⟩)
  obtain ⟨u2, v2, heq⟩ := h2
  have hurl : urlSearch (normalize_obfuscated (u ++ phraseObf ++ v)) = true := by
    have hsplit : u2 ++ phraseNorm ++ v2 =
        (u2 ++ ['v', 'i', 's', 'i', 't', ' ', 'e', 'x', 'a', 'm', 'p', 'l']) ++
          ('e' :: '.' :: 'c' :: 'o' :: 'm' :: ' ' :: 'n' :: 'o' :: 'w' :: v2) := by
      simp [phraseNorm]
    rw [normalize_obfuscated, heq, hsplit]
    exact urlSearch_append_right _ _ (urlSearch_phraseNorm_tail v2)
  have hne : (u ++ phraseObf ++ v).isEmpty = false := by cases u <;> rfl
  simp only [List.append_assoc] at hurl
  simp [text_contains_link, hne, hurl]
  exact Or.inr (Or.inl (by simp [phraseObf]))

/-- C5: any text containing `"visit http://example.com now"` is classified
link-positive; any text containing `"visit example[.]com now"` is classified
link-positive thanks to the obfuscation normalisation; and `"just chatting"`
is link-negative, and word-negative for the empty banned-word set. -/
theorem link_classifier_roundtrip :
    (∀ t : List Char, occursIn "visit http://example.com now".toList t →
      text_contains_link t = true) ∧
    (∀ t : List Char, occursIn "visit example[.]com now".toList t →
      text_contains_link t = true) ∧
    text_contains_link "just chatting".toList = false ∧
    text_contains_banned_word "just chatting".toList [] = none := by
  have hp1 : "visit http://example.com now".toList = phraseHttp := by decide
  have hp2 : "visit example[.]com now".toList = phraseObf := by decide
  refine ⟨?_, ?_, by decide, by decide⟩
  · intro t h
    exact link_pos_http t (hp1 ▸ h)
  · intro t h
    exact link_pos_obf t (hp2 ▸ h)

/-- C5 witness: the two phrases themselves. -/
theorem link_classifier_roundtrip_witness :
    text_contains_link "visit http://example.com now".toList = true ∧
    text_contains_link "visit example[.]com now".toList = true :=
  ⟨link_classifier_roundtrip.1 _ ⟨[], [], by decide⟩,
   link_classifier_roundtrip.2.1 _ ⟨[], [], by decide⟩⟩


/-! ## The moderation message handler (webhook variant) -/

/-- Telegram chat types (`direct` is a one-to-one chat, `"private"` in the
platform's naming). -/
inductive ChatType where
  | direct
  | group
  | supergroup
  | channel
  deriving DecidableEq, Repr

/-- `message_handler` of `TGBot2.py` for one inbound message: register the
sender; in group-style chats classify `text + " " + caption` against the
chat's effective policy; on a violation — gated entirely by the
`delete_links` flag — request deletion, increment the warning count, notify,
and when the new count has reached the threshold with ban-on-threshold
enabled request a ban, recording it only when the gateway call succeeds.
`deleteOk`/`banOk` are the gateway outcomes (a failed delete only logs, so it
does not influence state or further actions); every attempted gateway call is
emitted as an `Action`, in order. -/
def message_handler (deleteOk banOk : Bool) (st : BotState) (ct : ChatType)
    (c u : Int) (text caption : List Char) : BotState × List Action :=
  let _ := deleteOk
  let st1 := ensure_user_registered st u c
  if ct = ChatType.group ∨ ct = ChatType.supergroup then
    let t := text ++ ' ' :: caption
    let conf := get_chat_config st1 c
    let link_present := text_contains_link t
    let banned_word := text_contains_banned_word t conf.banned_words
    if conf.delete_links && (link_present || banned_word.isSome) then
      let incRes := increment_warning st1 c u
      let acts := [Action.deleteMsg, Action.notifyWarn incRes.2 conf.warn_limit]
      if (conf.warn_limit : Int) ≤ incRes.2 ∧ conf.ban_on_limit = true then
        if banOk then
          (ban_user_record incRes.1 c u, acts ++ [Action.banReq, Action.notifyBanned])
        else (incRes.1, acts ++ [Action.banReq])
      else (incRes.1, acts)
    else (st1, [])
  else (st1, [])

theorem chats_config_register (st : BotState) (u c : Int) :
    (ensure_user_registered st u c).chats_config = st.chats_config := by
  unfold ensure_user_registered
  by_cases h1 : (getA st.users u).isSome <;> simp [h1] <;> split <;> rfl

theorem get_chat_config_congr (st1 st2 : BotState) (c : Int)
    (h : st1.chats_config = st2.chats_config) :
    get_chat_config st1 c = get_chat_config st2 c := by
  simp [get_chat_config, h]

/-- C9: in the webhook variant, a conversation configured with
`delete_links = false` gets no moderation at all — no warning increment, no
ban-ledger change, and no gateway action — even for a message containing a
banned word (only user registration happens). -/
theorem delete_links_gates_moderation (deleteOk banOk : Bool) (st : BotState) (ct : ChatType)
    (c u : Int) (text caption : List Char)
    (h : (get_chat_config st c).delete_links = false) :
    (message_handler deleteOk banOk st ct c u text caption).1.warnings = st.warnings ∧
    (message_handler deleteOk banOk st ct c u text caption).1.banned = st.banned ∧
    (message_handler deleteOk banOk st ct c u text caption).2 = [] := by
  have hconf : get_chat_config (ensure_user_registered st u c) c = get_chat_config st c :=
    get_chat_config_congr _ _ c (chats_config_register st u c)
  unfold message_handler
  by_cases hct : ct = ChatType.group ∨ ct = ChatType.supergroup
  · simp only [hct, if_true, hconf, h, Bool.false_and, Bool.false_eq_true, if_false]
    exact ⟨warnings_register st u c, bannedList_untouched_by_register st u c, trivial⟩
  · simp only [hct, if_false]
    exact ⟨warnings_register st u c, bannedList_untouched_by_register st u c, trivial⟩

/-- C9 witness: a chat explicitly configured with `delete_links=False`
receives a banned-word message and nothing moderation-related happens. -/
theorem delete_links_gates_moderation_witness :
    (message_handler true true (cmd_setconfig initState 1 [.setDeleteLinks false])
        ChatType.group 1 2 "badword1".toList []).1.warnings =
      (cmd_setconfig initState 1 [.setDeleteLinks false]).warnings ∧
    (message_handler true true (cmd_setconfig initState 1 [.setDeleteLinks false])
        ChatType.group 1 2 "badword1".toList []).1.banned =
      (cmd_setconfig initState 1 [.setDeleteLinks false]).banned ∧
    (message_handler true true (cmd_setconfig initState 1 [.setDeleteLinks false])
        ChatType.group 1 2 "badword1".toList []).2 = [] :=
  delete_links_gates_moderation true true _ ChatType.group 1 2 _ [] (by decide)


theorem getWarn_increment_reg (st : BotState) (c u uu cc : Int) :
    getWarn (ensure_user_registered st uu cc) c u = getWarn st c u := by
  simp [getWarn, warnings_register]

theorem chats_config_increment (st : BotState) (c u : Int) :
    (increment_warning st c u).1.chats_config = st.chats_config := rfl

theorem chats_config_ban_record (st : BotState) (c u : Int) :
    (ban_user_record st c u).chats_config = st.chats_config := rfl

theorem increment_warning_snd (st : BotState) (c u : Int) :
    (increment_warning st c u).2 = getWarn st c u + 1 := by
  simp [increment_warning, getWarn]

def isBanReq : Action → Bool
  | .banReq => true
  | _ => false

/-- The number of ban requests among the emitted actions. -/
def countBanReqs (l : List Action) : Nat := l.countP isBanReq

/-- One qualifying violation: the pair's count goes up by one, the
configuration is untouched, and a ban is requested exactly when the new
count has reached the threshold (with ban-on-threshold enabled). -/
theorem message_handler_violation_step (deleteOk banOk : Bool) (ct : ChatType) (st : BotState)
    (c u : Int) (text caption : List Char)
    (hct : ct = ChatType.group ∨ ct = ChatType.supergroup)
    (hdl : (get_chat_config st c).delete_links = true)
    (hviol : (text_contains_link (text ++ ' ' :: caption) ||
      (text_contains_banned_word (text ++ ' ' :: caption)
        (get_chat_config st c).banned_words).isSome) = true) :
    (message_handler deleteOk banOk st ct c u text caption).1.chats_config =
      st.chats_config ∧
    getWarn (message_handler deleteOk banOk st ct c u text caption).1 c u =
      getWarn st c u + 1 ∧
    countBanReqs (message_handler deleteOk banOk st ct c u text caption).2 =
      (if ((get_chat_config st c).warn_limit : Int) ≤ getWarn st c u + 1 ∧
          (get_chat_config st c).ban_on_limit = true then 1 else 0) := by
  have hconf : get_chat_config (ensure_user_registered st u c) c = get_chat_config st c :=
    get_chat_config_congr _ _ c (chats_config_register st u c)
  have hsnd : (increment_warning (ensure_user_registered st u c) c u).2 =
      getWarn st c u + 1 := by
    rw [increment_warning_snd, getWarn_increment_reg]
  have hwarn : getWarn (increment_warning (ensure_user_registered st u c) c u).1 c u =
      getWarn st c u + 1 := by
    rw [getWarn_increment_self, getWarn_increment_reg]
  have hcfg : (increment_warning (ensure_user_registered st u c) c u).1.chats_config =
      st.chats_config := by
    rw [chats_config_increment, chats_config_register]
  unfold message_handler
  rw [if_pos hct]
  simp only [hconf, hdl, Bool.true_and, hviol, if_true, hsnd]
  by_cases hth : ((get_chat_config st c).warn_limit : Int) ≤ getWarn st c u + 1 ∧
      (get_chat_config st c).ban_on_limit = true
  · rw [if_pos hth, if_pos hth]
    cases banOk
    · simp only [Bool.false_eq_true, if_false]
      exact ⟨hcfg, hwarn, by simp [countBanReqs, isBanReq, List.countP_cons]⟩
    · simp only [if_true]
      refine ⟨?_, ?_, by simp [countBanReqs, isBanReq, List.countP_cons]⟩
      · rw [chats_config_ban_record, hcfg]
      · have : (ban_user_record (increment_warning (ensure_user_registered st u c) c u).1
            c u).warnings = (increment_warning (ensure_user_registered st u c) c u).1.warnings :=
          warnings_ban_record _ c u
        simp only [getWarn, this]
        simpa [getWarn] using hwarn
  · rw [if_neg hth, if_neg hth]
    exact ⟨hcfg, hwarn, by simp [countBanReqs, isBanReq, List.countP_cons]⟩


/-- `n` consecutive qualifying messages from the same user in the same chat,
processed by the handler in order; returns the final state and all emitted
actions. -/
def runViolations (deleteOk banOk : Bool) (ct : ChatType) (c u : Int)
    (text caption : List Char) : Nat → BotState → BotState × List Action
  | 0, st => (st, [])
  | Nat.succ n, st =>
    let first := message_handler deleteOk banOk st ct c u text caption
    let rest := runViolations deleteOk banOk ct c u text caption n first.1
    (rest.1, first.2 ++ rest.2)

theorem runViolations_spec (deleteOk banOk : Bool) (ct : ChatType) (c u : Int)
    (text caption : List Char) (T : Nat)
    (hct : ct = ChatType.group ∨ ct = ChatType.supergroup) :
    ∀ (n : Nat) (st : BotState),
      (get_chat_config st c).delete_links = true →
      (get_chat_config st c).warn_limit = T →
      (get_chat_config st c).ban_on_limit = true →
      (text_contains_link (text ++ ' ' :: caption) ||
        (text_contains_banned_word (text ++ ' ' :: caption)
          (get_chat_config st c).banned_words).isSome) = true →
      ∀ j : Nat, getWarn st c u = (j : Int) →
      getWarn (runViolations deleteOk banOk ct c u text caption n st).1 c u = ((j + n : Nat) : Int) ∧
      countBanReqs (runViolations deleteOk banOk ct c u text caption n st).2 =
        (j + n + 1 - T) - (j + 1 - T) := by
  intro n
  induction n with
  | zero =>
    intro st _ _ _ _ j hj
    simp [runViolations, countBanReqs, hj]
  | succ n ih =>
    intro st hdl hT hbol hviol j hj
    obtain ⟨hcfg, hwarn, hbans⟩ :=
      message_handler_violation_step deleteOk banOk ct st c u text caption hct hdl hviol
    have hconf2 : get_chat_config (message_handler deleteOk banOk st ct c u text caption).1 c =
        get_chat_config st c := get_chat_config_congr _ _ c hcfg
    have hwarn' : getWarn (message_handler deleteOk banOk st ct c u text caption).1 c u =
        ((j + 1 : Nat) : Int) := by
      rw [hwarn, hj]
      push_cast
      ring
    obtain ⟨ihw, ihb⟩ := ih (message_handler deleteOk banOk st ct c u text caption).1
      (by rw [hconf2]; exact hdl) (by rw [hconf2]; exact hT) (by rw [hconf2]; exact hbol)
      (by rw [hconf2]; exact hviol) (j + 1) hwarn'
    constructor
    · show getWarn (runViolations deleteOk banOk ct c u text caption n
        (message_handler deleteOk banOk st ct c u text caption).1).1 c u = _
      rw [ihw]
      norm_num
      ring
    · show countBanReqs ((message_handler deleteOk banOk st ct c u text caption).2 ++
        (runViolations deleteOk banOk ct c u text caption n
          (message_handler deleteOk banOk st ct c u text caption).1).2) = _
      rw [countBanReqs, List.countP_append, ← countBanReqs, ← countBanReqs, hbans, ihb, hT, hj]
      have hcast : (((T : Nat) : Int) ≤ (j : Int) + 1) ↔ (T ≤ j + 1) := by
        constructor <;> intro hh <;> exact_mod_cast hh
      by_cases hle : T ≤ j + 1
      · rw [if_pos ⟨by exact_mod_cast hle, hbol⟩]
        omega
      · rw [if_neg ?_]
        · omega
        · rintro ⟨hc, _⟩
          exact hle (by exact_mod_cast hc)

/-- C1 (amended): starting from a clean record, after `n` consecutive
qualifying violations the warning count equals `n`, and the engine requests a
ban at **every** violation whose incremented count has reached the threshold
`T` — `n + 1 - T` requests when `n ≥ T` (the first at the violation where the
count first reaches `T`) — not exactly once. -/
theorem warning_threshold_ban_requests (deleteOk banOk : Bool) (ct : ChatType) (st : BotState)
    (c u : Int) (text caption : List Char) (T n : Nat)
    (hct : ct = ChatType.group ∨ ct = ChatType.supergroup)
    (hdl : (get_chat_config st c).delete_links = true)
    (hT : (get_chat_config st c).warn_limit = T)
    (hTpos : 1 ≤ T)
    (hbol : (get_chat_config st c).ban_on_limit = true)
    (hviol : (text_contains_link (text ++ ' ' :: caption) ||
      (text_contains_banned_word (text ++ ' ' :: caption)
        (get_chat_config st c).banned_words).isSome) = true)
    (h0 : getWarn st c u = 0) :
    getWarn (runViolations deleteOk banOk ct c u text caption n st).1 c u = (n : Int) ∧
    countBanReqs (runViolations deleteOk banOk ct c u text caption n st).2 =
      if T ≤ n then n + 1 - T else 0 := by
  obtain ⟨hw, hb⟩ := runViolations_spec deleteOk banOk ct c u text caption T hct n st
    hdl hT hbol hviol 0 (by exact_mod_cast h0)
  refine ⟨by simpa using hw, ?_⟩
  rw [hb]
  by_cases hle : T ≤ n
  · rw [if_pos hle]; omega
  · rw [if_neg hle]; omega


/-- C1 counterexample: with the default policy (threshold 3, ban-on-threshold
on) and four consecutive banned-word messages from the same user, the engine
requests a ban **twice** — at the third violation, where the count first
reaches the threshold, and again at the fourth, where the count already
exceeds it — refuting "requests a ban action exactly once … and not again on
subsequent violations". -/
theorem ban_requested_again_after_threshold :
    countBanReqs
        (runViolations true true ChatType.group 1 2 "badword1".toList [] 4 initState).2 = 2 ∧
    countBanReqs
        (runViolations true true ChatType.group 1 2 "badword1".toList [] 4 initState).2 ≠ 1 := by
  have h : countBanReqs
      (runViolations true true ChatType.group 1 2 "badword1".toList [] 4 initState).2 = 2 := by
    decide
  exact ⟨h, by rw [h]; omega⟩

/-- C1 witness for the amended theorem: the concrete run of the
counterexample, through the general statement. -/
theorem warning_threshold_ban_requests_witness :
    getWarn (runViolations true true ChatType.group 1 2 "badword1".toList [] 4 initState).1
        1 2 = (4 : Int) ∧
    countBanReqs
        (runViolations true true ChatType.group 1 2 "badword1".toList [] 4 initState).2 =
      if 3 ≤ 4 then 4 + 1 - 3 else 0 :=
  warning_threshold_ban_requests true true ChatType.group initState 1 2
    "badword1".toList [] 3 4 (Or.inl rfl) (by decide) (by decide) (by decide) (by decide)
    (by decide) (by decide)

end TeleResearch
